import Mathlib

/-!
Verification of the `TodayRaces` scraper (`procyclingstats/today_races_scraper.py`).

The scraper operates over a parsed HTML document (selectolax).  We embed the
document as a rose tree of element and text nodes, give semantics to exactly
the CSS selector forms the scraper uses (simple tag+class selectors, the
descendant combinator, the child combinator, and the `[href^=...]` attribute
check), and translate each extraction method into a Lean function over that
tree.  Machine strings are Lean `String`s; Python's `in`, `startswith`,
slicing and `sorted` are modelled on the underlying character lists.
-/

/-- Whether `needle` occurs as a contiguous sublist of the second list. -/
def containsSub (needle : List Char) : List Char → Bool
  | [] => needle.isEmpty
  | c :: rest => needle.isPrefixOf (c :: rest) || containsSub needle rest

/-- Python's substring test `pat in hay`, on character lists. -/
def strContains (hay pat : String) : Bool := containsSub pat.data hay.data

/-- Python's `s.startswith(pre)`, on character lists. -/
def strStartsWith (s pre : String) : Bool := pre.data.isPrefixOf s.data

/-- Python's slice `s[1:]`. -/
def strTail (s : String) : String := String.mk s.data.tail

/-- Python's `s.strip()`: drop leading and trailing whitespace, on character
lists. -/
def strTrim (s : String) : String :=
  String.mk (((s.data.dropWhile Char.isWhitespace).reverse.dropWhile Char.isWhitespace).reverse)

/-- Lexicographic comparison on character lists (Python's string `<=` used by
`sorted`). -/
def lexLe : List Char → List Char → Bool
  | [], _ => true
  | _ :: _, [] => false
  | a :: as, b :: bs => if a < b then true else if b < a then false else lexLe as bs

/-- Python's string `<=` as used by `sorted`. -/
def strLe (a b : String) : Bool := lexLe a.data b.data

/-- A parsed HTML node: an element with a tag name, attribute list and child
list, or a text node. -/
inductive Node where
  | elem (tag : String) (attrs : List (String × String)) (children : List Node)
  | text (s : String)

/-- Tag of a node; selectolax reports the pseudo tag `-text` for text nodes. -/
def Node.tagName : Node → String
  | .elem t _ _ => t
  | .text _ => "-text"

/-- Attribute list of a node (text nodes have none). -/
def Node.attrList : Node → List (String × String)
  | .elem _ a _ => a
  | .text _ => []

/-- Child list of a node. -/
def Node.childList : Node → List Node
  | .elem _ _ cs => cs
  | .text _ => []

/-- Python's `node.attributes.get(key, dflt)`. -/
def attrGet (n : Node) (key dflt : String) : String :=
  match n.attrList.find? (fun p => p.1 == key) with
  | some p => p.2
  | none => dflt

/-- Split a character list at every occurrence of `sep` (the semantics of
`String.splitOn` for a one-character separator). -/
def splitChar (sep : Char) : List Char → List (List Char)
  | [] => [[]]
  | c :: rest =>
    match splitChar sep rest with
    | [] => [[c]]
    | t :: ts => if c == sep then [] :: t :: ts else (c :: t) :: ts

/-- The space-separated class tokens of a node, used by CSS class
selectors. -/
def classTokens (n : Node) : List String :=
  (splitChar ' ' (attrGet n "class" "").data).map String.mk

mutual
/-- selectolax `node.text(deep=True, strip=strip)`: concatenation of all text
chunks in the subtree, each stripped when `strip` is set. -/
def textContent (strip : Bool) : Node → String
  | .text s => if strip then strTrim s else s
  | .elem _ _ cs => textContentL strip cs
/-- Text content of a list of nodes, concatenated in order. -/
def textContentL (strip : Bool) : List Node → String
  | [] => ""
  | c :: rest => textContent strip c ++ textContentL strip rest
end

/-- One compound-free CSS selector: an optional tag name, required class
tokens, and an optional `[href^=p]` attribute condition. -/
structure SimpleSel where
  tag : Option String
  cls : List String
  hrefPre : Option String

/-- Whether a node matches a simple selector. -/
def simpleMatches (s : SimpleSel) (n : Node) : Bool :=
  (match s.tag with | some t => n.tagName == t | none => true)
  && s.cls.all (fun c => (classTokens n).contains c)
  && (match s.hrefPre with
      | some p => strStartsWith (attrGet n "href" "") p
      | none => true)

/-- The selector shapes used by the scraper: a simple selector, a descendant
combinator `A B`, or a child combinator `A > B`. -/
inductive Sel where
  | simple (s : SimpleSel)
  | desc (anc tgt : SimpleSel)
  | child (par tgt : SimpleSel)

/-- Whether a node with the given ancestor chain (nearest first, restricted to
the searched subtree) matches a selector. -/
def selMatches : Sel → List Node → Node → Bool
  | .simple s, _, n => simpleMatches s n
  | .desc a t, ancs, n => simpleMatches t n && ancs.any (simpleMatches a)
  | .child p t, ancs, n =>
      simpleMatches t n &&
        (match ancs with
         | par :: _ => simpleMatches p par
         | [] => false)

/-- A node in traversal context: its ancestor chain (nearest first) and its
following siblings in order. -/
structure Ctx where
  ancestors : List Node
  node : Node
  following : List Node

mutual
/-- Preorder (document-order) traversal of a subtree, recording each node's
ancestors and following siblings. -/
def ctxOf (anc foll : List Node) : Node → List Ctx
  | .text s => [⟨anc, .text s, foll⟩]
  | .elem t a cs => ⟨anc, .elem t a cs, foll⟩ :: ctxOfL (Node.elem t a cs :: anc) cs
/-- Traversal of a sibling list: each node's following siblings are the rest of
the list. -/
def ctxOfL (anc : List Node) : List Node → List Ctx
  | [] => []
  | c :: rest => ctxOf anc rest c ++ ctxOfL anc rest
end

/-- selectolax `node.css(sel)`: the document-order list of nodes in the
subtree of `n` matching `sel` (ancestors are resolved inside the subtree). -/
def cssAll (n : Node) (sel : Sel) : List Node :=
  (ctxOf [] [] n).filterMap
    (fun c => if selMatches sel c.ancestors c.node then some c.node else none)

/-- selectolax `node.css_first(sel)`. -/
def cssFirst (n : Node) (sel : Sel) : Option Node := (cssAll n sel).head?

/-- Like `cssFirst` but keeping the traversal context of the match. -/
def cssFirstCtx (n : Node) (sel : Sel) : Option Ctx :=
  ((ctxOf [] [] n).filter (fun c => selMatches sel c.ancestors c.node)).head?

/-- Selector `ul.hp3-livestats li.live` (line 45). -/
def selLiveItem : Sel :=
  .desc ⟨some "ul", ["hp3-livestats"], none⟩ ⟨some "li", ["live"], none⟩

/-- Selector `a`. -/
def selAnchor : Sel := .simple ⟨some "a", [], none⟩

/-- Selector `span.title` (line 53). -/
def selSpanTitle : Sel := .simple ⟨some "span", ["title"], none⟩

/-- Selector `div.togo` (line 57). -/
def selDivTogo : Sel := .simple ⟨some "div", ["togo"], none⟩

/-- Selector `table.next-to-finish tbody` (line 78). -/
def selNextTbody : Sel :=
  .desc ⟨some "table", ["next-to-finish"], none⟩ ⟨some "tbody", [], none⟩

/-- Selector `tr` (line 83). -/
def selTr : Sel := .simple ⟨some "tr", [], none⟩

/-- Selector `td` (line 84). -/
def selTd : Sel := .simple ⟨some "td", [], none⟩

/-- The simple selector `h3.black-info-title` (lines 121, 157). -/
def h3InfoSimple : SimpleSel := ⟨some "h3", ["black-info-title"], none⟩

/-- Selector `li.race` (lines 132, 168). -/
def selLiRace : Sel := .simple ⟨some "li", ["race"], none⟩

/-- Selector `div > a[href^='race/']` (lines 133, 169). -/
def selRaceLink : Sel :=
  .child ⟨some "div", [], none⟩ ⟨some "a", [], some "race/"⟩

/-- Selector `b` (line 137). -/
def selBold : Sel := .simple ⟨some "b", [], none⟩

/-- Selector `span.category` (lines 140, 176). -/
def selSpanCategory : Sel := .simple ⟨some "span", ["category"], none⟩

/-- Selector `div.content` (line 201). -/
def selDivContent : Sel := .simple ⟨some "div", ["content"], none⟩

/-- Selector `div.page-content` (line 203). -/
def selDivPageContent : Sel := .simple ⟨some "div", ["page-content"], none⟩

/-- Record built by `live_races` (lines 62-67). -/
structure LiveRace where
  url : String
  name : String
  status : String
  togo : String
deriving DecidableEq

/-- Record built by `next_to_finish` (lines 103-109); `raceClass` is the
Python dict key `class`. -/
structure UpcomingFinish where
  url : String
  name : String
  eta : String
  category : String
  raceClass : String
deriving DecidableEq

/-- Record built by `finished_races` and `yesterday_races` (lines 142-146,
178-182). -/
structure ResultRecord where
  url : String
  name : String
  category : String
deriving DecidableEq

/-- Body of the `live_races` loop for one `li` (lines 47-67): skip the item
when it has no anchor, otherwise read href, title text and togo text. -/
def liveItem (li : Node) : Option LiveRace :=
  match cssFirst li selAnchor with
  | none => none
  | some aTag =>
    let href := attrGet aTag "href" ""
    let name :=
      match cssFirst li selSpanTitle with
      | some t => textContent true t
      | none => ""
    let togo :=
      match cssFirst li selDivTogo with
      | some d => textContent true d
      | none => ""
    some ⟨href, name, "live", togo⟩

/-- `live_races` (lines 38-69). -/
def live_races (doc : Node) : List LiveRace :=
  (cssAll doc selLiveItem).filterMap liveItem

/-- Body of the `next_to_finish` loop for one row (lines 83-109), including
the redundant length re-checks of the source. -/
def rowRecord (row : Node) : Option UpcomingFinish :=
  let cells := cssAll row selTd
  if cells.length < 4 then none
  else
    let eta := if 1 < cells.length then textContent true (cells.getD 1 (Node.text "")) else ""
    let aTag := if 3 < cells.length then cssFirst (cells.getD 3 (Node.text "")) selAnchor else none
    match aTag with
    | none => none
    | some a =>
      let href := attrGet a "href" ""
      let name := textContent true a
      let category := if 4 < cells.length then textContent true (cells.getD 4 (Node.text "")) else ""
      let raceClass := if 5 < cells.length then textContent true (cells.getD 5 (Node.text "")) else ""
      some ⟨href, name, eta, category, raceClass⟩

/-- `next_to_finish` (lines 71-111). -/
def next_to_finish (doc : Node) : List UpcomingFinish :=
  match cssFirst doc selNextTbody with
  | none => []
  | some tbody => (cssAll tbody selTr).filterMap rowRecord

/-- The sibling test of the locator loop (lines 125, 161):
`sibling.tag == "ul" and "hp2-results" in sibling.attributes.get("class", "")`. -/
def ulResultsPred (s : Node) : Bool :=
  s.tagName == "ul" && strContains (attrGet s "class" "") "hp2-results"

/-- The `while sibling:` walk of lines 123-128 / 159-164 over the heading's
following siblings. -/
def siblingWalk : List Node → Option Node
  | [] => none
  | s :: rest => if ulResultsPred s then some s else siblingWalk rest

/-- Each `h3.black-info-title` heading of the document in document order,
paired with its chain of following siblings (what `h3.next` iterates). -/
def h3Pairs (doc : Node) : List (Node × List Node) :=
  (ctxOf [] [] doc).filterMap
    (fun c => if simpleMatches h3InfoSimple c.node then some (c.node, c.following) else none)

/-- The `for h3 in ...` locator loop of lines 121-129 / 157-165: at the first
heading whose raw text contains `label`, walk its siblings and stop
(`break`) whatever the walk returned. -/
def sectionSearch (label : String) : List (Node × List Node) → Option Node
  | [] => none
  | (h, foll) :: rest =>
    if strContains (textContent false h) label then siblingWalk foll
    else sectionSearch label rest

/-- Body of the results-list loop for one `li.race` (lines 132-146 and,
identically, 168-182). -/
def resultItem (li : Node) : Option ResultRecord :=
  match cssFirst li selRaceLink with
  | none => none
  | some link =>
    let href := attrGet link "href" ""
    let name :=
      match cssFirst link selBold with
      | some b => textContent true b
      | none => ""
    let category :=
      match cssFirst li selSpanCategory with
      | some s => textContent true s
      | none => ""
    some ⟨href, name, category⟩

/-- `finished_races` (lines 113-147). -/
def finished_races (doc : Node) : List ResultRecord :=
  match sectionSearch "Results today" (h3Pairs doc) with
  | none => []
  | some sec => (cssAll sec selLiRace).filterMap resultItem

/-- `yesterday_races` (lines 149-183). -/
def yesterday_races (doc : Node) : List ResultRecord :=
  match sectionSearch "Results yesterday" (h3Pairs doc) with
  | none => []
  | some sec => (cssAll sec selLiRace).filterMap resultItem

/-- The href admission and normalization of lines 207-209: keep an href
starting with `/race/` or `race/`, stripping the leading slash. -/
def normalizeHref (href : String) : Option String :=
  if strStartsWith href "/race/" || strStartsWith href "race/" then
    some (if strStartsWith href "/race/" then strTail href else href)
  else none

/-- The anchor scan of lines 205-210 over `div.page-content`: read each
anchor's href attribute (absent means skip, Python `.get` returning `None`)
and admit it through `normalizeHref`. -/
def collectRaceHrefs (pageDiv : Node) : List String :=
  (cssAll pageDiv selAnchor).filterMap
    (fun a =>
      match a.attrList.find? (fun p => p.1 == "href") with
      | none => none
      | some p => normalizeHref p.2)

/-- Python's `set.add`: insert a string unless already present. -/
def setInsert (s : List String) (x : String) : List String :=
  if x ∈ s then s else x :: s

/-- Python's `sorted` on strings: a stable sort by `strLe`. -/
def sortStrings (l : List String) : List String :=
  List.insertionSort (fun a b => strLe a b = true) l

/-- `race_urls_for_date` (lines 185-211), taken after the external HTTP fetch:
the input is the parsed response document. -/
def race_urls_for_date (respDoc : Node) : List String :=
  match cssFirst respDoc selDivContent with
  | none => []
  | some contentDiv =>
    match cssFirst contentDiv selDivPageContent with
    | none => []
    | some pageDiv => sortStrings ((collectRaceHrefs pageDiv).foldl setInsert [])

/-! Spec-side definitions.  Each of these is written from the wording of the
specification, independently of the loop structure of the source, so that the
claims comparing spec and code are material equalities rather than
restatements. -/

/-- Spec 4.3 Results-Section Locator, as worded: the first heading (document
order) whose text contains the label, then the first following sibling that
is a `ul` whose class attribute contains the marker substring. -/
def specLocate (label : String) (doc : Node) : Option Node :=
  ((h3Pairs doc).find? (fun p => strContains (textContent false p.1) label)).bind
    (fun p => p.2.find? ulResultsPred)

/-- Spec 4.1 per-item extraction, as worded: skip the item when it has no
anchor; otherwise href (default empty), title text (default empty), constant
status, togo text (default empty). -/
def specLiveItem (li : Node) : Option LiveRace :=
  (cssFirst li selAnchor).map
    (fun a =>
      { url := attrGet a "href" ""
        name := ((cssFirst li selSpanTitle).map (textContent true)).getD ""
        status := "live"
        togo := ((cssFirst li selDivTogo).map (textContent true)).getD "" })

/-- Spec 4.2 per-row extraction, as worded: a row with fewer than 4 cells
contributes nothing; otherwise eta is cell 1's stripped text, url and name
come from the anchor of cell 3 (no anchor, no record), category and class
default to the empty string when their cells are missing. -/
def specRowRecord (row : Node) : Option UpcomingFinish :=
  let cells := cssAll row selTd
  if cells.length < 4 then none
  else
    match cssFirst (cells.getD 3 (Node.text "")) selAnchor with
    | none => none
    | some a =>
      some { url := attrGet a "href" ""
             name := textContent true a
             eta := textContent true (cells.getD 1 (Node.text ""))
             category := if 4 < cells.length then textContent true (cells.getD 4 (Node.text "")) else ""
             raceClass := if 5 < cells.length then textContent true (cells.getD 5 (Node.text "")) else "" }

/-- Spec 4.3/4.4: the single parameterized results routine of which
`finished_races` and `yesterday_races` are the two instances. -/
def resultsRoutine (label : String) (doc : Node) : List ResultRecord :=
  match specLocate label doc with
  | none => []
  | some sec => (cssAll sec selLiRace).filterMap resultItem

/-- Spec 4.4's category clause, as worded: the category of a list item comes
from a `span.category` that is a sibling of the item's race anchor — a child
of the anchor's parent `div` — and is empty when no such sibling exists. -/
def specSiblingCategory (li : Node) : String :=
  match cssFirstCtx li selRaceLink with
  | none => ""
  | some c =>
    match c.ancestors with
    | [] => ""
    | par :: _ =>
      match par.childList.find? (simpleMatches ⟨some "span", ["category"], none⟩) with
      | some s => textContent true s
      | none => ""

/-- What the code actually uses for the category of a list item: the first
`span.category` anywhere in the item's subtree (line 140 / 176). -/
def descendantCategory (li : Node) : String :=
  match cssFirst li selSpanCategory with
  | some s => textContent true s
  | none => ""

/-- The hrefs collected from the response document before deduplication and
sorting (lines 200-210 without the set). -/
def collectedUrls (doc : Node) : List String :=
  match cssFirst doc selDivContent with
  | none => []
  | some contentDiv =>
    match cssFirst contentDiv selDivPageContent with
    | none => []
    | some pageDiv => collectRaceHrefs pageDiv

/-! Concrete documents used as witnesses and counterexamples. -/

/-- An empty homepage document. -/
def exDocEmpty : Node := Node.elem "html" [] []

/-- Spec scenario for `live_races`: one `li.live` item with anchor, title and
togo parts. -/
def exDocLive : Node :=
  Node.elem "html" []
    [Node.elem "ul" [("class", "hp3-livestats")]
      [Node.elem "li" [("class", "live")]
        [Node.elem "a" [("href", "race/x/2026/stage-2/live")]
          [Node.elem "span" [("class", "title")] [Node.text "Stage 2"]],
         Node.elem "div" [("class", "togo")] [Node.text "12km"]]]]

/-- Spec scenario for the calendar: the same race linked once with and once
without the leading slash. -/
def exDocCalendar : Node :=
  Node.elem "html" []
    [Node.elem "div" [("class", "content")]
      [Node.elem "div" [("class", "page-content")]
        [Node.elem "a" [("href", "/race/a/2026")] [Node.text "A"],
         Node.elem "a" [("href", "race/a/2026")] [Node.text "A"]]]]

/-- A results list item whose `span.category` sits inside the anchor itself,
so it is a descendant of the anchor but a sibling of nothing relevant. -/
def exLiNested : Node :=
  Node.elem "li" [("class", "race")]
    [Node.elem "div" []
      [Node.elem "a" [("href", "race/tour-x/2026")]
        [Node.elem "b" [] [Node.text "Tour X"],
         Node.elem "span" [("class", "category")] [Node.text "2.UWT"]]]]

/-- A "Results today" section whose only item is `exLiNested`. -/
def exDocNestedCategory : Node :=
  Node.elem "html" []
    [Node.elem "h3" [("class", "black-info-title")] [Node.text "Results today"],
     Node.elem "ul" [("class", "hp2-results")] [exLiNested]]

/-- A "Results yesterday" section with one ordinary item. -/
def exDocYesterday : Node :=
  Node.elem "html" []
    [Node.elem "h3" [("class", "black-info-title")] [Node.text "Results yesterday"],
     Node.elem "ul" [("class", "hp2-results")]
      [Node.elem "li" [("class", "race")]
        [Node.elem "div" []
          [Node.elem "a" [("href", "race/y/2026")] [Node.elem "b" [] [Node.text "Y"]],
           Node.elem "span" [("class", "category")] [Node.text "1.1"]]]]]

/-- A next-to-finish row with 4 cells whose name cell holds an anchor that
has no `href` attribute. -/
def exRowNoHref : Node :=
  Node.elem "tr" []
    [Node.elem "td" [] [],
     Node.elem "td" [] [Node.text "14:30"],
     Node.elem "td" [] [],
     Node.elem "td" [] [Node.elem "a" [] [Node.text "Giro Z"]]]

/-- A document whose next-to-finish table contains only `exRowNoHref`. -/
def exDocNoHref : Node :=
  Node.elem "html" []
    [Node.elem "table" [("class", "next-to-finish")]
      [Node.elem "tbody" [] [exRowNoHref]]]

/-- A live list item with no anchor. -/
def exLiNoAnchor : Node :=
  Node.elem "li" [("class", "live")] [Node.elem "span" [] [Node.text "x"]]

/-- A 4-cell row whose name cell has no anchor. -/
def exRowNoAnchor : Node :=
  Node.elem "tr" []
    [Node.elem "td" [] [], Node.elem "td" [] [], Node.elem "td" [] [],
     Node.elem "td" [] [Node.text "no link"]]

/-- A results list item whose anchor is not wrapped in a `div`, so the
`div > a[href^='race/']` selector finds nothing. -/
def exLiNoLink : Node :=
  Node.elem "li" [("class", "race")] [Node.elem "a" [("href", "race/z")] []]

-- Sanity examples (concrete evaluation of the embedding).
example :
    textContent true (.elem "b" [] [.text " x ", .elem "i" [] [.text " y "]]) = "xy" := rfl

example :
    cssFirst (.elem "li" [] [.elem "div" [] [.elem "a" [("href", "race/a")] []]]) selRaceLink =
      some (.elem "a" [("href", "race/a")] []) := rfl

example :
    cssFirst (.elem "li" [] [.elem "a" [("href", "race/a")] []]) selRaceLink = none := rfl

/-! Helper lemmas shared by the claim theorems. -/

theorem siblingWalk_eq_find (l : List Node) : siblingWalk l = l.find? ulResultsPred := by
  induction l with
  | nil => rfl
  | cons s rest ih =>
    simp only [siblingWalk, List.find?_cons]
    by_cases h : ulResultsPred s = true
    · simp [h]
    · simp only [Bool.not_eq_true] at h
      simp [h, ih]

theorem sectionSearch_eq_locate (label : String) (pairs : List (Node × List Node)) :
    sectionSearch label pairs =
      (pairs.find? (fun p => strContains (textContent false p.1) label)).bind
        (fun p => p.2.find? ulResultsPred) := by
  induction pairs with
  | nil => rfl
  | cons p rest ih =>
    obtain ⟨h, foll⟩ := p
    simp only [sectionSearch, List.find?_cons]
    by_cases hc : strContains (textContent false h) label = true
    · simp [hc, siblingWalk_eq_find]
    · simp only [Bool.not_eq_true] at hc
      simp [hc, ih]

theorem sectionSearch_eq_specLocate (label : String) (doc : Node) :
    sectionSearch label (h3Pairs doc) = specLocate label doc :=
  sectionSearch_eq_locate label (h3Pairs doc)

theorem liveItem_eq_specLiveItem (li : Node) : liveItem li = specLiveItem li := by
  unfold liveItem specLiveItem
  cases ha : cssFirst li selAnchor with
  | none => rfl
  | some a =>
    cases ht : cssFirst li selSpanTitle <;>
      cases hg : cssFirst li selDivTogo <;>
        simp [ha, ht, hg]

theorem rowRecord_eq_specRowRecord (row : Node) : rowRecord row = specRowRecord row := by
  unfold rowRecord specRowRecord
  by_cases h : (cssAll row selTd).length < 4
  · simp [h]
  · have h1 : 1 < (cssAll row selTd).length := by omega
    have h3 : 3 < (cssAll row selTd).length := by omega
    simp only [h, if_false, h1, if_true, h3, if_pos]

theorem mem_cssAll_imp {n : Node} {sel : Sel} {m : Node} (hm : m ∈ cssAll n sel) :
    ∃ c ∈ ctxOf [] [] n, c.node = m ∧ selMatches sel c.ancestors m = true := by
  unfold cssAll at hm
  obtain ⟨c, hc, he⟩ := List.mem_filterMap.mp hm
  by_cases hs : selMatches sel c.ancestors c.node = true
  · rw [if_pos hs] at he
    obtain rfl : c.node = m := Option.some.inj he
    exact ⟨c, hc, rfl, hs⟩
  · rw [if_neg hs] at he
    exact absurd he (Option.noConfusion)

theorem cssFirst_mem {n : Node} {sel : Sel} {m : Node} (h : cssFirst n sel = some m) :
    m ∈ cssAll n sel := by
  unfold cssFirst at h
  cases hl : cssAll n sel with
  | nil => rw [hl] at h; exact absurd h (Option.noConfusion)
  | cons a rest =>
    rw [hl] at h
    obtain rfl : a = m := Option.some.inj h
    exact List.mem_cons_self a rest

theorem raceLink_href {ancs : List Node} {m : Node}
    (h : selMatches selRaceLink ancs m = true) :
    strStartsWith (attrGet m "href" "") "race/" = true := by
  simp only [selRaceLink, selMatches, Bool.and_eq_true] at h
  have hs := h.1
  simp only [simpleMatches, Bool.and_eq_true] at hs
  exact hs.2

theorem resultItem_url {li : Node} {r : ResultRecord} (h : resultItem li = some r) :
    strStartsWith r.url "race/" = true := by
  unfold resultItem at h
  cases hl : cssFirst li selRaceLink with
  | none => rw [hl] at h; exact absurd h (Option.noConfusion)
  | some link =>
    rw [hl] at h
    obtain ⟨c, _, hceq, hmatch⟩ := mem_cssAll_imp (cssFirst_mem hl)
    have hurl : r.url = attrGet link "href" "" := by
      obtain rfl := Option.some.inj h
      rfl
    rw [hurl]
    exact raceLink_href hmatch

theorem startsWith_race_ne_empty {u : String} (h : strStartsWith u "race/" = true) :
    u ≠ "" := by
  intro he
  subst he
  exact absurd h (by decide)

theorem startsWith_race_not_slash {u : String} (h : strStartsWith u "race/" = true) :
    strStartsWith u "/" = false := by
  unfold strStartsWith at h ⊢
  cases hd : u.data with
  | nil => rw [hd] at h; exact absurd h (by decide)
  | cons c cs =>
    rw [hd] at h
    have hr : ("race/".data) = 'r' :: "ace/".data := rfl
    rw [hr] at h
    simp only [List.isPrefixOf, Bool.and_eq_true, beq_iff_eq] at h
    obtain ⟨rfl, -⟩ := h
    have hs : ("/".data) = ['/'] := rfl
    have hf : (('/' : Char) == 'r') = false := by decide
    rw [hs]
    simp [List.isPrefixOf, hf]

theorem startsWith_slash_race_tail {s : String} (h : strStartsWith s "/race/" = true) :
    strStartsWith (strTail s) "race/" = true := by
  unfold strStartsWith at h ⊢
  unfold strTail
  have hr : ("/race/".data) = '/' :: "race/".data := rfl
  rw [hr] at h
  cases hd : s.data with
  | nil => rw [hd] at h; exact absurd h (by decide)
  | cons c cs =>
    rw [hd] at h
    simp only [List.isPrefixOf, Bool.and_eq_true] at h
    exact h.2

theorem normalizeHref_some {href u : String} (h : normalizeHref href = some u) :
    strStartsWith u "race/" = true := by
  unfold normalizeHref at h
  by_cases hc : (strStartsWith href "/race/" || strStartsWith href "race/") = true
  · rw [if_pos hc] at h
    obtain rfl := Option.some.inj h
    by_cases ha : strStartsWith href "/race/" = true
    · rw [if_pos ha]
      exact startsWith_slash_race_tail ha
    · simp only [Bool.not_eq_true] at ha
      rw [ha] at hc
      simp only [Bool.false_or] at hc
      rw [if_neg (by simp [ha])]
      exact hc
  · rw [if_neg hc] at h
    exact absurd h (Option.noConfusion)

theorem mem_setInsert {s : List String} {a x : String} :
    x ∈ setInsert s a ↔ x = a ∨ x ∈ s := by
  unfold setInsert
  by_cases h : a ∈ s
  · simp only [if_pos h]
    constructor
    · exact Or.inr
    · rintro (rfl | hx)
      · exact h
      · exact hx
  · simp [if_neg h]

theorem nodup_setInsert {s : List String} {a : String} (h : s.Nodup) :
    (setInsert s a).Nodup := by
  unfold setInsert
  by_cases ha : a ∈ s
  · simpa [if_pos ha]
  · simpa [if_neg ha, List.nodup_cons, ha]

theorem mem_foldl_setInsert (l : List String) (s : List String) (x : String) :
    x ∈ l.foldl setInsert s ↔ x ∈ s ∨ x ∈ l := by
  induction l generalizing s with
  | nil => simp
  | cons a rest ih =>
    simp only [List.foldl_cons, ih, mem_setInsert, List.mem_cons]
    tauto

theorem nodup_foldl_setInsert (l : List String) (s : List String) (h : s.Nodup) :
    (l.foldl setInsert s).Nodup := by
  induction l generalizing s with
  | nil => exact h
  | cons a rest ih => exact ih _ (nodup_setInsert h)

theorem lexLe_total (a b : List Char) : lexLe a b = true ∨ lexLe b a = true := by
  induction a generalizing b with
  | nil => left; rfl
  | cons x xs ih =>
    cases b with
    | nil => right; rfl
    | cons y ys =>
      simp only [lexLe]
      rcases lt_trichotomy x y with h | h | h
      · left; simp [h]
      · subst h; simpa [lt_irrefl] using ih ys
      · right; simp [h, not_lt_of_lt h]

theorem lexLe_trans (a b c : List Char) (hab : lexLe a b = true) (hbc : lexLe b c = true) :
    lexLe a c = true := by
  induction a generalizing b c with
  | nil => rfl
  | cons x xs ih =>
    cases b with
    | nil => simp [lexLe] at hab
    | cons y ys =>
      cases c with
      | nil => simp [lexLe] at hbc
      | cons z zs =>
        simp only [lexLe] at hab hbc ⊢
        rcases lt_trichotomy x y with h1 | h1 | h1
        · rcases lt_trichotomy y z with h2 | h2 | h2
          · simp [lt_trans h1 h2]
          · subst h2; simp [h1]
          · simp [h2, not_lt_of_lt h2] at hbc
        · subst h1
          rcases lt_trichotomy x z with h2 | h2 | h2
          · simp [h2]
          · subst h2
            simp only [lt_irrefl, if_false] at hab hbc ⊢
            exact ih ys zs hab hbc
          · simp [h2, not_lt_of_lt h2] at hbc
        · simp [h1, not_lt_of_lt h1] at hab

instance : IsTotal String (fun a b => strLe a b = true) :=
  ⟨fun a b => lexLe_total a.data b.data⟩

instance : IsTrans String (fun a b => strLe a b = true) :=
  ⟨fun a b c => lexLe_trans a.data b.data c.data⟩

theorem sortStrings_sorted (l : List String) :
    List.Sorted (fun a b => strLe a b = true) (sortStrings l) :=
  List.sorted_insertionSort _ l

theorem sortStrings_perm (l : List String) : List.Perm (sortStrings l) l :=
  List.perm_insertionSort _ l

theorem race_urls_eq (doc : Node) :
    race_urls_for_date doc = sortStrings ((collectedUrls doc).foldl setInsert []) := by
  unfold race_urls_for_date collectedUrls
  cases h1 : cssFirst doc selDivContent with
  | none => rfl
  | some contentDiv =>
    dsimp only
    cases h2 : cssFirst contentDiv selDivPageContent with
    | none => rfl
    | some pageDiv => rfl

theorem mem_race_urls {doc : Node} {u : String} :
    u ∈ race_urls_for_date doc ↔ u ∈ collectedUrls doc := by
  rw [race_urls_eq]
  rw [(sortStrings_perm _).mem_iff, mem_foldl_setInsert]
  simp

theorem nodup_race_urls (doc : Node) : (race_urls_for_date doc).Nodup := by
  rw [race_urls_eq]
  exact (sortStrings_perm _).nodup_iff.mpr (nodup_foldl_setInsert _ _ List.nodup_nil)

theorem sorted_race_urls (doc : Node) :
    List.Pairwise (fun a b => strLe a b = true) (race_urls_for_date doc) := by
  rw [race_urls_eq]
  exact sortStrings_sorted _

theorem mem_collectRaceHrefs_starts {pageDiv : Node} {u : String}
    (h : u ∈ collectRaceHrefs pageDiv) : strStartsWith u "race/" = true := by
  unfold collectRaceHrefs at h
  obtain ⟨a, -, he⟩ := List.mem_filterMap.mp h
  cases hf : a.attrList.find? (fun p => p.1 == "href") with
  | none => rw [hf] at he; exact absurd he (Option.noConfusion)
  | some p =>
    rw [hf] at he
    exact normalizeHref_some he

theorem mem_collectedUrls_starts {doc : Node} {u : String} (h : u ∈ collectedUrls doc) :
    strStartsWith u "race/" = true := by
  unfold collectedUrls at h
  revert h
  cases h1 : cssFirst doc selDivContent with
  | none => intro h; exact absurd h (by simp)
  | some contentDiv =>
    dsimp only
    cases h2 : cssFirst contentDiv selDivPageContent with
    | none => intro h; exact absurd h (by simp)
    | some pageDiv => exact mem_collectRaceHrefs_starts

theorem resultItem_category {li : Node} {r : ResultRecord} (h : resultItem li = some r) :
    r.category = descendantCategory li := by
  unfold resultItem at h
  cases hl : cssFirst li selRaceLink with
  | none => rw [hl] at h; exact absurd h (Option.noConfusion)
  | some link =>
    rw [hl] at h
    obtain rfl := Option.some.inj h
    unfold descendantCategory
    rfl

theorem mem_finished_races {doc : Node} {r : ResultRecord} (h : r ∈ finished_races doc) :
    ∃ sec li, sectionSearch "Results today" (h3Pairs doc) = some sec
      ∧ li ∈ cssAll sec selLiRace ∧ resultItem li = some r := by
  unfold finished_races at h
  revert h
  cases hs : sectionSearch "Results today" (h3Pairs doc) with
  | none => intro h; exact absurd h (by simp)
  | some sec =>
    intro h
    obtain ⟨li, hli, he⟩ := List.mem_filterMap.mp h
    exact ⟨sec, li, rfl, hli, he⟩

theorem mem_yesterday_races {doc : Node} {r : ResultRecord} (h : r ∈ yesterday_races doc) :
    ∃ sec li, sectionSearch "Results yesterday" (h3Pairs doc) = some sec
      ∧ li ∈ cssAll sec selLiRace ∧ resultItem li = some r := by
  unfold yesterday_races at h
  revert h
  cases hs : sectionSearch "Results yesterday" (h3Pairs doc) with
  | none => intro h; exact absurd h (by simp)
  | some sec =>
    intro h
    obtain ⟨li, hli, he⟩ := List.mem_filterMap.mp h
    exact ⟨sec, li, rfl, hli, he⟩

/-! Claim theorems. -/

/-- C1: the Results-Section Locator inside `finished_races` and
`yesterday_races` iterates the `h3.black-info-title` headings in document
order; only the first heading whose raw text contains the label is ever
inspected; from it the code walks forward through the sibling chain and
returns the first sibling that is a `ul` whose class attribute contains the
substring `hp2-results`; when no heading matches or the walk exhausts, the
locator yields "not found" and the extraction returns an empty record list. -/
theorem C1_results_section_locator (label : String) (doc : Node) :
    sectionSearch label (h3Pairs doc) = specLocate label doc
    ∧ (specLocate "Results today" doc = none → finished_races doc = [])
    ∧ (specLocate "Results yesterday" doc = none → yesterday_races doc = []) := by
  refine ⟨sectionSearch_eq_specLocate label doc, ?_, ?_⟩
  · intro h
    unfold finished_races
    rw [sectionSearch_eq_specLocate, h]
  · intro h
    unfold yesterday_races
    rw [sectionSearch_eq_specLocate, h]

/-- Witness for C1 at a concrete document with no matching heading. -/
theorem C1_witness :
    sectionSearch "Results today" (h3Pairs exDocEmpty) = specLocate "Results today" exDocEmpty
    ∧ finished_races exDocEmpty = [] :=
  ⟨(C1_results_section_locator "Results today" exDocEmpty).1,
   (C1_results_section_locator "Results today" exDocEmpty).2.1 rfl⟩

/-- C2: `next_to_finish` skips a row with fewer than 4 cells, and a row whose
cell 3 holds no anchor; a contributing row yields eta from cell 1's stripped
text, url and name from cell 3's anchor, category from cell 4 when present
else empty, and class from cell 5 when present else empty. -/
theorem C2_next_to_finish_rows (doc row : Node) :
    rowRecord row = specRowRecord row
    ∧ next_to_finish doc =
        ((cssFirst doc selNextTbody).map
          (fun tb => (cssAll tb selTr).filterMap specRowRecord)).getD [] := by
  refine ⟨rowRecord_eq_specRowRecord row, ?_⟩
  unfold next_to_finish
  cases h : cssFirst doc selNextTbody with
  | none => rfl
  | some tb =>
    dsimp only [Option.map, Option.getD]
    rw [show rowRecord = specRowRecord from funext rowRecord_eq_specRowRecord]

/-- C3: the calendar extractor's output is duplicate-free, lexicographically
sorted, contains exactly the admitted and slash-stripped hrefs of the content
subtree, never starts an entry with a path separator, and collapses the
leading-slash variant of an href with its bare variant. -/
theorem C3_race_urls_normalized (doc : Node) (u : String) :
    List.Pairwise (fun a b => strLe a b = true) (race_urls_for_date doc)
    ∧ (race_urls_for_date doc).Nodup
    ∧ (u ∈ race_urls_for_date doc ↔ u ∈ collectedUrls doc)
    ∧ (u ∈ race_urls_for_date doc → strStartsWith u "/" = false)
    ∧ race_urls_for_date exDocCalendar = ["race/a/2026"] := by
  refine ⟨sorted_race_urls doc, nodup_race_urls doc, mem_race_urls, ?_, rfl⟩
  intro hu
  exact startsWith_race_not_slash (mem_collectedUrls_starts (mem_race_urls.mp hu))

/-- Witness for C3 at the two-anchor calendar document. -/
theorem C3_witness :
    strStartsWith "race/a/2026" "/" = false
    ∧ "race/a/2026" ∈ race_urls_for_date exDocCalendar :=
  ⟨(C3_race_urls_normalized exDocCalendar "race/a/2026").2.2.2.1 (by decide), by decide⟩

/-- C4: the four extraction operations are total Lean functions over every
document (no partiality anywhere in their definitions), and in each
degenerate shape — no live container matches, no next-to-finish table body,
no located results section — the result is the empty list rather than an
error. -/
theorem C4_extractors_total (doc : Node) :
    (cssAll doc selLiveItem = [] → live_races doc = [])
    ∧ (cssFirst doc selNextTbody = none → next_to_finish doc = [])
    ∧ (sectionSearch "Results today" (h3Pairs doc) = none → finished_races doc = [])
    ∧ (sectionSearch "Results yesterday" (h3Pairs doc) = none → yesterday_races doc = []) := by
  refine ⟨?_, ?_, ?_, ?_⟩
  · intro h; unfold live_races; rw [h]; rfl
  · intro h; unfold next_to_finish; rw [h]
  · intro h; unfold finished_races; rw [h]
  · intro h; unfold yesterday_races; rw [h]

/-- Witness for C4 at the empty document. -/
theorem C4_witness :
    live_races exDocEmpty = [] ∧ next_to_finish exDocEmpty = []
    ∧ finished_races exDocEmpty = [] ∧ yesterday_races exDocEmpty = [] :=
  ⟨(C4_extractors_total exDocEmpty).1 rfl, (C4_extractors_total exDocEmpty).2.1 rfl,
   (C4_extractors_total exDocEmpty).2.2.1 rfl, (C4_extractors_total exDocEmpty).2.2.2 rfl⟩

/-- C5: `live_races` emits one record per anchored `li.live` item of the
live-status container — href (default empty), stripped title text (default
empty), constant status "live", stripped togo text (default empty) — and on
the spec's scenario document produces exactly the scenario record. -/
theorem C5_live_races (doc : Node) :
    live_races doc = (cssAll doc selLiveItem).filterMap specLiveItem
    ∧ live_races exDocLive =
        [{ url := "race/x/2026/stage-2/live", name := "Stage 2",
           status := "live", togo := "12km" }] := by
  constructor
  · unfold live_races
    rw [show liveItem = specLiveItem from funext liveItem_eq_specLiveItem]
  · rfl

/-- C6: `finished_races` and `yesterday_races` are extensionally the single
parameterized results routine applied to the labels "Results today" and
"Results yesterday", so on any document where the two labels locate the same
results container the two methods agree. -/
theorem C6_parameterized_routine (doc : Node) :
    finished_races doc = resultsRoutine "Results today" doc
    ∧ yesterday_races doc = resultsRoutine "Results yesterday" doc
    ∧ (specLocate "Results today" doc = specLocate "Results yesterday" doc →
        finished_races doc = yesterday_races doc) := by
  have hf : finished_races doc = resultsRoutine "Results today" doc := by
    unfold finished_races resultsRoutine
    rw [sectionSearch_eq_specLocate]
  have hy : yesterday_races doc = resultsRoutine "Results yesterday" doc := by
    unfold yesterday_races resultsRoutine
    rw [sectionSearch_eq_specLocate]
  refine ⟨hf, hy, fun h => ?_⟩
  rw [hf, hy]
  unfold resultsRoutine
  rw [h]

/-- Witness for C6 at a document where both labels locate no section. -/
theorem C6_witness : finished_races exDocEmpty = yesterday_races exDocEmpty :=
  (C6_parameterized_routine exDocEmpty).2.2 rfl

/-- C7 counterexample: on `exDocNestedCategory` the single emitted record has
category "2.UWT", although the only `span.category` of the list item is a
descendant of the record's anchor, not one of its siblings — the
sibling-based category demanded by the claim is the empty string there, so
the claim is false as stated. -/
theorem C7_counterexample :
    finished_races exDocNestedCategory =
      [{ url := "race/tour-x/2026", name := "Tour X", category := "2.UWT" }]
    ∧ specSiblingCategory exLiNested = ""
    ∧ ({ url := "race/tour-x/2026", name := "Tour X", category := "2.UWT" } :
        ResultRecord).category ≠ "" :=
  ⟨rfl, rfl, by decide⟩

/-- C7 (amended): every record emitted by `finished_races` or
`yesterday_races` takes its category from the first `span.category` among the
descendants of its source list item in document order (empty when absent);
the span need not be a sibling of the record's anchor. -/
theorem C7_category_descendant (doc : Node) (r : ResultRecord) :
    (r ∈ finished_races doc →
      ∃ sec li, sectionSearch "Results today" (h3Pairs doc) = some sec
        ∧ li ∈ cssAll sec selLiRace ∧ resultItem li = some r
        ∧ r.category = descendantCategory li)
    ∧ (r ∈ yesterday_races doc →
      ∃ sec li, sectionSearch "Results yesterday" (h3Pairs doc) = some sec
        ∧ li ∈ cssAll sec selLiRace ∧ resultItem li = some r
        ∧ r.category = descendantCategory li) := by
  constructor
  · intro h
    obtain ⟨sec, li, hs, hli, he⟩ := mem_finished_races h
    exact ⟨sec, li, hs, hli, he, resultItem_category he⟩
  · intro h
    obtain ⟨sec, li, hs, hli, he⟩ := mem_yesterday_races h
    exact ⟨sec, li, hs, hli, he, resultItem_category he⟩

/-- Witness for the amended C7 at the nested-category document. -/
theorem C7_witness :
    ∃ sec li, sectionSearch "Results today" (h3Pairs exDocNestedCategory) = some sec
      ∧ li ∈ cssAll sec selLiRace
      ∧ resultItem li =
          some { url := "race/tour-x/2026", name := "Tour X", category := "2.UWT" }
      ∧ ({ url := "race/tour-x/2026", name := "Tour X", category := "2.UWT" } :
          ResultRecord).category = descendantCategory li :=
  (C7_category_descendant exDocNestedCategory
    { url := "race/tour-x/2026", name := "Tour X", category := "2.UWT" }).1 (by decide)

/-- C8: a record is only emitted when its defining anchor exists: a live item
with no anchor, a next-to-finish row whose name cell has no anchor, and a
results item with no `div > a[href^='race/']` anchor each contribute
nothing. -/
theorem C8_anchor_required (li row rli : Node) :
    (cssFirst li selAnchor = none → liveItem li = none)
    ∧ (cssFirst ((cssAll row selTd).getD 3 (Node.text "")) selAnchor = none →
        rowRecord row = none)
    ∧ (cssFirst rli selRaceLink = none → resultItem rli = none) := by
  refine ⟨?_, ?_, ?_⟩
  · intro h
    unfold liveItem
    rw [h]
  · intro h
    rw [rowRecord_eq_specRowRecord]
    unfold specRowRecord
    dsimp only
    by_cases hl : (cssAll row selTd).length < 4
    · rw [if_pos hl]
    · rw [if_neg hl, h]
  · intro h
    unfold resultItem
    rw [h]

/-- Witness for C8 at items and rows with no anchors. -/
theorem C8_witness :
    liveItem exLiNoAnchor = none ∧ rowRecord exRowNoAnchor = none
    ∧ resultItem exLiNoLink = none :=
  ⟨(C8_anchor_required exLiNoAnchor exRowNoAnchor exLiNoLink).1 rfl,
   (C8_anchor_required exLiNoAnchor exRowNoAnchor exLiNoLink).2.1 rfl,
   (C8_anchor_required exLiNoAnchor exRowNoAnchor exLiNoLink).2.2 rfl⟩

/-- C9: every url in the outputs of `finished_races`, `yesterday_races` and
`race_urls_for_date` is non-empty and starts with the race path `race/` —
the result extractors select their anchor by an href prefix condition, and
the calendar collector admits only `race/` or `/race/` hrefs and strips the
slash. -/
theorem C9_url_race_prefixed (doc : Node) (r : ResultRecord) (u : String) :
    (r ∈ finished_races doc → strStartsWith r.url "race/" = true ∧ r.url ≠ "")
    ∧ (r ∈ yesterday_races doc → strStartsWith r.url "race/" = true ∧ r.url ≠ "")
    ∧ (u ∈ race_urls_for_date doc → strStartsWith u "race/" = true ∧ u ≠ "") := by
  refine ⟨?_, ?_, ?_⟩
  · intro h
    obtain ⟨sec, li, -, -, he⟩ := mem_finished_races h
    exact ⟨resultItem_url he, startsWith_race_ne_empty (resultItem_url he)⟩
  · intro h
    obtain ⟨sec, li, -, -, he⟩ := mem_yesterday_races h
    exact ⟨resultItem_url he, startsWith_race_ne_empty (resultItem_url he)⟩
  · intro h
    have hs := mem_collectedUrls_starts (mem_race_urls.mp h)
    exact ⟨hs, startsWith_race_ne_empty hs⟩

/-- Witness for C9 at concrete result and calendar documents. -/
theorem C9_witness :
    (strStartsWith ({ url := "race/tour-x/2026", name := "Tour X", category := "2.UWT" } :
        ResultRecord).url "race/" = true
      ∧ ({ url := "race/tour-x/2026", name := "Tour X", category := "2.UWT" } :
          ResultRecord).url ≠ "")
    ∧ (strStartsWith ({ url := "race/y/2026", name := "Y", category := "1.1" } :
        ResultRecord).url "race/" = true
      ∧ ({ url := "race/y/2026", name := "Y", category := "1.1" } :
          ResultRecord).url ≠ "")
    ∧ (strStartsWith "race/a/2026" "race/" = true ∧ ("race/a/2026" : String) ≠ "") :=
  ⟨(C9_url_race_prefixed exDocNestedCategory
      { url := "race/tour-x/2026", name := "Tour X", category := "2.UWT" } "").1 (by decide),
   (C9_url_race_prefixed exDocYesterday
      { url := "race/y/2026", name := "Y", category := "1.1" } "").2.1 (by decide),
   (C9_url_race_prefixed exDocCalendar
      { url := "", name := "", category := "" } "race/a/2026").2.2 (by decide)⟩

/-- C10: in `next_to_finish`, anchor-element presence — not href presence —
is the emission criterion: a row with at least 4 cells whose cell 3 holds an
anchor with no `href` attribute still yields a record, with url equal to the
empty string, as the concrete document `exDocNoHref` shows. -/
theorem C10_href_absent_empty_url :
    (∀ row a, ¬ (cssAll row selTd).length < 4 →
       cssFirst ((cssAll row selTd).getD 3 (Node.text "")) selAnchor = some a →
       a.attrList.find? (fun p => p.1 == "href") = none →
       ∃ r, rowRecord row = some r ∧ r.url = "")
    ∧ next_to_finish exDocNoHref =
        [{ url := "", name := "Giro Z", eta := "14:30", category := "", raceClass := "" }] := by
  constructor
  · intro row a h4 ha hf
    rw [rowRecord_eq_specRowRecord]
    unfold specRowRecord
    dsimp only
    rw [if_neg h4, ha]
    refine ⟨_, rfl, ?_⟩
    show attrGet a "href" "" = ""
    unfold attrGet
    rw [hf]
  · rfl

/-- Witness for C10's general part at the concrete anchored-but-hrefless
row. -/
theorem C10_witness : ∃ r, rowRecord exRowNoHref = some r ∧ r.url = "" :=
  C10_href_absent_empty_url.1 exRowNoHref (Node.elem "a" [] [Node.text "Giro Z"])
    (by decide) rfl rfl
